import Mathlib

/-!
Shallow embedding of `src/main.rs` of the `gankshell` repository: an
interactive shell with an alias table, a handful of builtins
(`exit`, `alias`, `env`, `cd`, `source`), external-command spawning, and a
line completer.  Side effects (printing, spawning, saving the config,
exiting the process) are recorded as an explicit effect trace; the OS and
the filesystem are oracles supplied as function-valued fields of an
environment record.  Recursion through the `source` builtin is modelled
with a fuel parameter (`none` = fuel exhausted; the Rust code has no
recursion bound).
-/

namespace Gankshell

/-- Rust struct `Cfg { ps, al }`: prompt suffix and alias table.  The
`HashMap<String, String>` is modelled as an association list with
overwrite-on-insert and first-match lookup. -/
structure Cfg where
  ps : String
  al : List (String × String)
  deriving Repr, DecidableEq

/-- Rust `Cfg::default()`: prompt suffix `"->"`, empty alias table. -/
def Cfg.default : Cfg := { ps := "->", al := [] }

/-- Model of `HashMap::insert`: inserting a key that already exists overwrites the
prior value; otherwise the pair is appended. -/
def alInsert (al : List (String × String)) (k v : String) : List (String × String) :=
  match al with
  | [] => [(k, v)]
  | (k', v') :: rest => if k' = k then (k, v) :: rest else (k', v') :: alInsert rest k v

/-- Model of `HashMap::get`: exact-match lookup. -/
def alGet (al : List (String × String)) (k : String) : Option String :=
  match al with
  | [] => none
  | (k', v') :: rest => if k' = k then some v' else alGet rest k

/-- Drop leading and trailing whitespace from a character list
(Rust `str::trim`). -/
def trimL (l : List Char) : List Char :=
  ((l.dropWhile Char.isWhitespace).reverse.dropWhile Char.isWhitespace).reverse

/-- Rust `str::trim` (structural implementation, so that it reduces in the
kernel). -/
def strTrim (s : String) : String :=
  String.mk (trimL s.data)

/-- Worker for `splitWhitespace`: `acc` is the current token, reversed. -/
def splitWsAux : List Char → List Char → List String
  | [], acc => if acc = [] then [] else [String.mk acc.reverse]
  | c :: cs, acc =>
    if c.isWhitespace then
      if acc = [] then splitWsAux cs []
      else String.mk acc.reverse :: splitWsAux cs []
    else splitWsAux cs (c :: acc)

/-- Rust `str::split_whitespace`: split on whitespace, coalescing runs of
separators and producing no empty tokens. -/
def splitWhitespace (s : String) : List String :=
  splitWsAux s.data []

/-- Rust `Vec::join(" ")`: re-join tokens with single spaces. -/
def joinSpace : List String → String
  | [] => ""
  | [x] => x
  | x :: xs => x ++ " " ++ joinSpace xs

/-- Rust `str::split_once(c)` on character lists: split at the first occurrence
of `c`, returning the pieces before and after it, or `none` when `c` does
not occur. -/
def splitOnceCharL (c : Char) : List Char → Option (List Char × List Char)
  | [] => none
  | x :: xs =>
    if x = c then some ([], xs)
    else (splitOnceCharL c xs).map fun p => (x :: p.1, p.2)

/-- Rust `str::split_once('=')` lifted to `String`. -/
def splitOnceEq (s : String) : Option (String × String) :=
  (splitOnceCharL '=' s.data).map fun p => (String.mk p.1, String.mk p.2)

/-- Rust `str::replacen(pat, rep, 1)` on character lists: replace the first
occurrence of `pat` (leftmost match) by `rep`, leaving the rest intact. -/
def replaceFirstL (pat rep : List Char) : List Char → List Char
  | [] => []
  | x :: xs =>
    if pat.isPrefixOf (x :: xs) then rep ++ (x :: xs).drop pat.length
    else x :: replaceFirstL pat rep xs

/-- Rust `str::replacen(pat, rep, 1)` lifted to `String`. -/
def replacen1 (s pat rep : String) : String :=
  String.mk (replaceFirstL pat.data rep.data s.data)

/-- Rust `path.starts_with('~')` (a `char` pattern checks the first
character). -/
def startsWithChar (s : String) (c : Char) : Bool :=
  match s.data with
  | [] => false
  | x :: _ => x = c

/-- Rust `Sh::expand_path` (the PathResolver): if `path` starts with `~` and the
home variable is set, replace the first occurrence of `~` with its value;
otherwise return `path` unchanged. -/
def expand_path (home : Option String) (path : String) : String :=
  if startsWithChar path '~' then
    match home with
    | some h => replacen1 path "~" h
    | none => path
  else path

/-- One observable side effect of the shell. -/
inductive Eff where
  /-- `println!` output (one line). -/
  | println (s : String)
  /-- `Sh::save`: the configuration written to the config file. -/
  | saveCfg (c : Cfg)
  /-- `Command::new(cmd).args(args).status()`: an external program spawn. -/
  | spawn (cmd : String) (args : List String)
  /-- `std::process::exit(code)`. -/
  | exitProc (code : Nat)
  deriving Repr, DecidableEq

/-- The ambient OS / filesystem, as oracles.  `home` is the `HOME`
variable, `vars` the environment snapshot in enumeration order, `readFile`
is `fs::read_to_string` (`none` = read failure), `chdir` takes the current
working directory and the requested path and returns the new working
directory or an OS error message, `spawnRes` is the child's exit status or
a spawn error message. -/
structure Env where
  home : Option String
  vars : List (String × String)
  readFile : String → Option String
  chdir : String → String → Except String String
  spawnRes : String → List String → Except String Nat

/-- The shell's mutable state: the in-memory configuration and the process
working directory. -/
structure St where
  cfg : Cfg
  cwd : String
  deriving Repr, DecidableEq

/-- Rust `Sh::exec`: spawn the program, wait, and print the raw status on
non-zero exit or the raw OS error on spawn failure. -/
def exec (env : Env) (cmd : String) (args : List String) : List Eff :=
  Eff.spawn cmd args ::
    match env.spawnRes cmd args with
    | .ok code => if code ≠ 0 then [Eff.println ("Falhou: " ++ toString code)] else []
    | .error e => [Eff.println ("Erro ao executar: " ++ e)]

/-- Strip one leading `'\r'` (the accumulator is reversed, so this is the
carriage return of a `\r\n` line ending). -/
def trimCrHead : List Char → List Char
  | '\r' :: l => l
  | l => l

/-- Worker for `rustLines`: `acc` is the current line, reversed. -/
def rustLinesL : List Char → List Char → List String
  | [], acc => if acc = [] then [] else [String.mk acc.reverse]
  | c :: cs, acc =>
    if c = '\n' then String.mk (trimCrHead acc).reverse :: rustLinesL cs []
    else rustLinesL cs (c :: acc)

/-- Rust `str::lines()`: split at `\n` or `\r\n` line endings, the final
line ending optional (so no trailing empty line, and a lone final `\r`
is kept). -/
def rustLines (s : String) : List String :=
  rustLinesL s.data []

/-- Run a line handler over the lines of a sourced file, in order,
threading the state, concatenating the effect traces, and stopping early
when a line exits the process (third component `true`). -/
def runLines (h : St → String → Option (St × List Eff × Bool)) :
    St → List String → Option (St × List Eff × Bool)
  | st, [] => some (st, [], false)
  | st, l :: ls =>
    match h st l with
    | none => none
    | some (st', effs, true) => some (st', effs, true)
    | some (st', effs, false) =>
      (runLines h st' ls).map fun r => (r.1, effs ++ r.2.1, r.2.2)

/-- Rust `Sh::handle`: dispatch one input line.  Returns the new state, the
effect trace, and whether the process exited (`exit` builtin), or `none`
when the fuel for `source` recursion ran out. -/
def handle (env : Env) : Nat → St → String → Option (St × List Eff × Bool)
  | 0, _, _ => none
  | fuel + 1, st, input =>
    match splitWhitespace (strTrim input) with
    | [] => some (st, [], false)
    | cmd :: rest =>
      match cmd with
      | "exit" =>
        some (st, [Eff.saveCfg st.cfg, Eff.println "Tchau!", Eff.exitProc 0], true)
      | "alias" =>
        match splitOnceEq (joinSpace rest) with
        | some (k, v) =>
          some ({ st with cfg := { st.cfg with al := alInsert st.cfg.al k v } },
            [Eff.println ("Alias adicionado: " ++ k ++ " -> " ++ v)], false)
        | none => some (st, [Eff.println "Uso: alias nome=comando"], false)
      | "env" =>
        some (st, env.vars.map (fun kv => Eff.println (kv.1 ++ "=" ++ kv.2)), false)
      | "cd" =>
        match rest with
        | dir :: _ =>
          match env.chdir st.cwd (expand_path env.home dir) with
          | .ok newCwd => some ({ st with cwd := newCwd }, [], false)
          | .error e => some (st, [Eff.println ("Erro: " ++ e)], false)
        | [] => some (st, [Eff.println "Uso: cd <diretório>"], false)
      | "source" =>
        match rest with
        | file :: _ =>
          match env.readFile (expand_path env.home file) with
          | some content => runLines (handle env fuel) st (rustLines content)
          | none => some (st, [Eff.println ("Erro ao carregar o arquivo " ++ file)], false)
        | [] => some (st, [Eff.println "Uso: source <arquivo>"], false)
      | other =>
        some (st, exec env ((alGet st.cfg.al other).getD other) rest, false)

/-- One outcome of `Editor::readline` in `Sh::run`: a read line, an
interrupt, end-of-input, or another read error. -/
inductive ReadRes where
  | line (s : String)
  | interrupted
  | eof
  | err (e : String)
  deriving Repr, DecidableEq

/-- How the read loop ended: end-of-input, a fatal read error, process
exit through the `exit` builtin, or the input stream model ran out while
the loop was still waiting. -/
inductive LoopExit where
  | eofExit
  | errExit
  | procExit
  | pending
  deriving Repr, DecidableEq

/-- Rust `Sh::run`: the read-dispatch loop over a stream of read outcomes.
Prompt rendering produces no modelled effect.  A read line that trims to
empty is skipped; an interrupt prints a notice and continues; end-of-input
prints a notice and breaks; any other read error prints it and breaks;
the `exit` builtin terminates the process. -/
def run (env : Env) (fuel : Nat) : St → List ReadRes → Option (St × List Eff × LoopExit)
  | st, [] => some (st, [], LoopExit.pending)
  | st, r :: rs =>
    match r with
    | .line l =>
      if trimL l.data = [] then run env fuel st rs
      else
        match handle env fuel st l with
        | none => none
        | some (st', effs, true) => some (st', effs, LoopExit.procExit)
        | some (st', effs, false) =>
          (run env fuel st' rs).map fun t => (t.1, effs ++ t.2.1, t.2.2)
    | .interrupted =>
      (run env fuel st rs).map fun t => (t.1, Eff.println "\nInterrompido" :: t.2.1, t.2.2)
    | .eof => some (st, [Eff.println "\nSaindo..."], LoopExit.eofExit)
    | .err e => some (st, [Eff.println ("Erro: " ++ e)], LoopExit.errExit)

/-! ## The completer (`Comp::complete`)

Rust slices the line as raw bytes (`&line[..pos]`), which panics when
`pos` is not a UTF-8 character boundary.  The model therefore works on
the UTF-8 byte encoding of the line, and `complete` returns `none`
exactly on the panicking inputs. -/

/-- UTF-8 encoding of one character (1 to 4 bytes). -/
def utf8EncodeChar (c : Char) : List Nat :=
  let n := c.toNat
  if n < 0x80 then [n]
  else if n < 0x800 then [0xC0 + n / 0x40, 0x80 + n % 0x40]
  else if n < 0x10000 then
    [0xE0 + n / 0x1000, 0x80 + n / 0x40 % 0x40, 0x80 + n % 0x40]
  else
    [0xF0 + n / 0x40000, 0x80 + n / 0x1000 % 0x40, 0x80 + n / 0x40 % 0x40, 0x80 + n % 0x40]

/-- The UTF-8 bytes of a string (what Rust's `str::as_bytes` exposes). -/
def strBytes (s : String) : List Nat :=
  s.data.foldr (fun c acc => utf8EncodeChar c ++ acc) []

/-- Rust `str::is_char_boundary(pos)`: true at 0 and at the total length,
and at any byte that is not a UTF-8 continuation byte; false beyond the
end. -/
def isCharBoundary (bytes : List Nat) (pos : Nat) : Bool :=
  match bytes.get? pos with
  | none => pos = bytes.length
  | some b => b < 0x80 || 0xC0 ≤ b

/-- Rust `name.starts_with(pfx)` where `pfx` is a byte slice of the line. -/
def bytesPrefixOf (p : List Nat) (s : String) : Bool :=
  p.isPrefixOf (strBytes s)

/-- Rust `paths.split(':')`: split at every `':'`, keeping empty pieces. -/
def splitColonL : List Char → List Char → List String
  | [], acc => [String.mk acc.reverse]
  | c :: cs, acc =>
    if c = ':' then String.mk acc.reverse :: splitColonL cs []
    else splitColonL cs (c :: acc)

/-- Rust `paths.split(':')` on a `String`. -/
def splitColon (s : String) : List String :=
  splitColonL s.data []

/-- The fixed builtin candidate list seeded by `Comp::complete`. -/
def builtinCmds : List String := ["ls", "cd", "exit", "alias", "env", "cat", "source"]

/-- The filesystem as the completer sees it: the `PATH` variable (`none` =
unset) and `fs::read_dir` (`none` = the directory failed to open; entry
names are listed in discovery order). -/
structure CompEnv where
  pathVar : Option String
  readDir : String → Option (List String)

/-- Rust `Comp::complete`: match the whole line up to the cursor, as bytes,
against the fixed builtin list, then every `PATH` directory's entries in
order, then the current directory's entries; no deduplication; insertion
point always 0.  `none` models the byte-slice panic at a non-boundary
cursor. -/
def complete (cenv : CompEnv) (line : String) (pos : Nat) :
    Option (Nat × List (String × String)) :=
  let bytes := strBytes line
  if isCharBoundary bytes pos then
    let pfx := bytes.take pos
    let m1 := (builtinCmds.filter (fun c => bytesPrefixOf pfx c)).map fun c => (c, c)
    let m2 :=
      match cenv.pathVar with
      | none => []
      | some paths =>
        (splitColon paths).foldl
          (fun acc dir =>
            match cenv.readDir dir with
            | none => acc
            | some entries =>
              acc ++ (entries.filter (fun n => bytesPrefixOf pfx n)).map fun n => (n, n))
          []
    let m3 :=
      match cenv.readDir "." with
      | none => []
      | some entries => (entries.filter (fun n => bytesPrefixOf pfx n)).map fun n => (n, n)
    some (0, m1 ++ m2 ++ m3)
  else none

/-! ## Concrete environments and claim-side definitions -/

/-- Recognizes a configuration-save effect in a trace. -/
def isSave : Eff → Bool
  | Eff.saveCfg _ => true
  | _ => false

/-- Benign concrete environment: no home variable, empty environment
snapshot, every file read and directory change fails, every spawn
succeeds with status 0. -/
def env0 : Env :=
  { home := none, vars := [], readFile := fun _ => none,
    chdir := fun _ _ => Except.error "e", spawnRes := fun _ _ => Except.ok 0 }

/-- Fresh shell state: default configuration, working directory `/`. -/
def st0 : St := { cfg := Cfg.default, cwd := "/" }

/-- Environment in which the file `loop` sources itself. -/
def envLoop : Env :=
  { home := none, vars := [],
    readFile := fun f => if f = "loop" then some "source loop" else none,
    chdir := fun _ _ => Except.error "x",
    spawnRes := fun _ _ => Except.ok 0 }

/-- Environment in which the file `f` holds the single line `alias a=b`. -/
def envSrc : Env :=
  { home := none, vars := [],
    readFile := fun f => if f = "f" then some "alias a=b" else none,
    chdir := fun _ _ => Except.error "e", spawnRes := fun _ _ => Except.ok 0 }

/-- Completer environment with no `PATH` variable and no openable
directory. -/
def cenvE : CompEnv := { pathVar := none, readDir := fun _ => none }

/-- Candidate set as claim C5 words it (claim-side definition, to be
compared with `complete`): the builtins starting with the byte prefix, in
the fixed list order; then, for each directory of the colon-split `PATH`
variable in order, every entry starting with the prefix (directories that
fail to open silently skipped); then every matching current-directory
entry; discovery order, no deduplication. -/
def claimCandidates (cenv : CompEnv) (pfx : List Nat) : List (String × String) :=
  ((builtinCmds.filter fun c => bytesPrefixOf pfx c).map fun c => (c, c))
    ++ ((match cenv.pathVar with
          | none => []
          | some paths => splitColon paths).map fun dir =>
            match cenv.readDir dir with
            | none => []
            | some entries =>
              (entries.filter fun n => bytesPrefixOf pfx n).map fun n => (n, n)).flatten
    ++ (match cenv.readDir "." with
        | none => []
        | some entries =>
          (entries.filter fun n => bytesPrefixOf pfx n).map fun n => (n, n))

/-! ## Helper lemmas -/

lemma handle_empty {env : Env} {fuel : Nat} {st : St} {input : String}
    (h : splitWhitespace (strTrim input) = []) :
    handle env (fuel + 1) st input = some (st, [], false) := by
  simp only [handle, h]

lemma handle_exit {env : Env} {fuel : Nat} {st : St} {input : String} {rest : List String}
    (h : splitWhitespace (strTrim input) = "exit" :: rest) :
    handle env (fuel + 1) st input =
      some (st, [Eff.saveCfg st.cfg, Eff.println "Tchau!", Eff.exitProc 0], true) := by
  simp only [handle, h]

lemma handle_alias_some {env : Env} {fuel : Nat} {st : St} {input : String}
    {rest : List String} {k v : String}
    (h : splitWhitespace (strTrim input) = "alias" :: rest)
    (hkv : splitOnceEq (joinSpace rest) = some (k, v)) :
    handle env (fuel + 1) st input =
      some ({ st with cfg := { st.cfg with al := alInsert st.cfg.al k v } },
        [Eff.println ("Alias adicionado: " ++ k ++ " -> " ++ v)], false) := by
  simp only [handle, h, hkv]

lemma handle_alias_none {env : Env} {fuel : Nat} {st : St} {input : String}
    {rest : List String}
    (h : splitWhitespace (strTrim input) = "alias" :: rest)
    (hkv : splitOnceEq (joinSpace rest) = none) :
    handle env (fuel + 1) st input = some (st, [Eff.println "Uso: alias nome=comando"], false) := by
  simp only [handle, h, hkv]

lemma handle_env_builtin {env : Env} {fuel : Nat} {st : St} {input : String} {rest : List String}
    (h : splitWhitespace (strTrim input) = "env" :: rest) :
    handle env (fuel + 1) st input =
      some (st, env.vars.map (fun kv => Eff.println (kv.1 ++ "=" ++ kv.2)), false) := by
  simp only [handle, h]

lemma handle_cd_noarg {env : Env} {fuel : Nat} {st : St} {input : String}
    (h : splitWhitespace (strTrim input) = ["cd"]) :
    handle env (fuel + 1) st input = some (st, [Eff.println "Uso: cd <diretório>"], false) := by
  simp only [handle, h]

lemma handle_cd_ok {env : Env} {fuel : Nat} {st : St} {input : String}
    {dir : String} {rest : List String} {newCwd : String}
    (h : splitWhitespace (strTrim input) = "cd" :: dir :: rest)
    (hc : env.chdir st.cwd (expand_path env.home dir) = .ok newCwd) :
    handle env (fuel + 1) st input = some ({ st with cwd := newCwd }, [], false) := by
  simp only [handle, h, hc]

lemma handle_cd_err {env : Env} {fuel : Nat} {st : St} {input : String}
    {dir : String} {rest : List String} {msg : String}
    (h : splitWhitespace (strTrim input) = "cd" :: dir :: rest)
    (hc : env.chdir st.cwd (expand_path env.home dir) = .error msg) :
    handle env (fuel + 1) st input = some (st, [Eff.println ("Erro: " ++ msg)], false) := by
  simp only [handle, h, hc]

lemma handle_source_noarg {env : Env} {fuel : Nat} {st : St} {input : String}
    (h : splitWhitespace (strTrim input) = ["source"]) :
    handle env (fuel + 1) st input = some (st, [Eff.println "Uso: source <arquivo>"], false) := by
  simp only [handle, h]

lemma handle_source_ok {env : Env} {fuel : Nat} {st : St} {input : String}
    {file : String} {rest : List String} {content : String}
    (h : splitWhitespace (strTrim input) = "source" :: file :: rest)
    (hr : env.readFile (expand_path env.home file) = some content) :
    handle env (fuel + 1) st input = runLines (handle env fuel) st (rustLines content) := by
  simp only [handle, h, hr]

lemma handle_source_err {env : Env} {fuel : Nat} {st : St} {input : String}
    {file : String} {rest : List String}
    (h : splitWhitespace (strTrim input) = "source" :: file :: rest)
    (hr : env.readFile (expand_path env.home file) = none) :
    handle env (fuel + 1) st input =
      some (st, [Eff.println ("Erro ao carregar o arquivo " ++ file)], false) := by
  simp only [handle, h, hr]

lemma handle_external {env : Env} {fuel : Nat} {st : St} {input : String}
    {c : String} {args : List String}
    (h : splitWhitespace (strTrim input) = c :: args)
    (h1 : c ≠ "exit") (h2 : c ≠ "alias") (h3 : c ≠ "env") (h4 : c ≠ "cd") (h5 : c ≠ "source") :
    handle env (fuel + 1) st input =
      some (st, exec env ((alGet st.cfg.al c).getD c) args, false) := by
  simp only [handle, h]

lemma exec_no_save {env : Env} {cmd : String} {args : List String} {c : Cfg} :
    Eff.saveCfg c ∉ exec env cmd args := by
  simp only [exec]
  cases env.spawnRes cmd args with
  | ok code =>
    by_cases hc : code = 0 <;> simp [hc]
  | error e => simp

lemma runLines_no_save {hnd : St → String → Option (St × List Eff × Bool)}
    (H : ∀ st l st' effs, hnd st l = some (st', effs, false) → ∀ c : Cfg, Eff.saveCfg c ∉ effs) :
    ∀ ls st st' effs, runLines hnd st ls = some (st', effs, false) →
      ∀ c : Cfg, Eff.saveCfg c ∉ effs := by
  intro ls
  induction ls with
  | nil =>
    intro st st' effs h c
    simp only [runLines, Option.some.injEq, Prod.mk.injEq] at h
    simp [← h.2.1]
  | cons l ls ih =>
    intro st st' effs h c
    simp only [runLines] at h
    split at h
    · simp at h
    · simp only [Option.some.injEq, Prod.mk.injEq] at h
      exact absurd h.2.2 (by decide)
    · rename_i st1 effs1 heq
      cases hr : runLines hnd st1 ls with
      | none => rw [hr] at h; simp at h
      | some t =>
        obtain ⟨st2, effs2, ex2⟩ := t
        rw [hr] at h
        simp only [Option.map_some', Option.some.injEq, Prod.mk.injEq] at h
        obtain ⟨h1, h2, h3⟩ := h
        rw [← h2]
        intro hmem
        rcases List.mem_append.mp hmem with hm | hm
        · exact H st l st1 effs1 heq c hm
        · exact ih st1 st2 effs2 (by rw [hr, ← h3]) c hm

lemma handle_no_save {env : Env} :
    ∀ fuel st input st' effs, handle env fuel st input = some (st', effs, false) →
      ∀ c : Cfg, Eff.saveCfg c ∉ effs := by
  intro fuel
  induction fuel with
  | zero => intro st input st' effs h; simp [handle] at h
  | succ fuel ih =>
    intro st input st' effs h c
    rcases htok : splitWhitespace (strTrim input) with - | ⟨cmd, rest⟩
    · rw [handle_empty htok] at h
      simp only [Option.some.injEq, Prod.mk.injEq] at h
      simp [← h.2.1]
    · by_cases h1 : cmd = "exit"
      · subst h1
        rw [handle_exit htok] at h
        simp only [Option.some.injEq, Prod.mk.injEq] at h
        exact absurd h.2.2 (by decide)
      · by_cases h2 : cmd = "alias"
        · subst h2
          cases hkv : splitOnceEq (joinSpace rest) with
          | some kv =>
            obtain ⟨k, v⟩ := kv
            rw [handle_alias_some htok hkv] at h
            simp only [Option.some.injEq, Prod.mk.injEq] at h
            simp [← h.2.1]
          | none =>
            rw [handle_alias_none htok hkv] at h
            simp only [Option.some.injEq, Prod.mk.injEq] at h
            simp [← h.2.1]
        · by_cases h3 : cmd = "env"
          · subst h3
            rw [handle_env_builtin htok] at h
            simp only [Option.some.injEq, Prod.mk.injEq] at h
            rw [← h.2.1]
            simp
          · by_cases h4 : cmd = "cd"
            · subst h4
              rcases rest with - | ⟨dir, rest'⟩
              · rw [handle_cd_noarg htok] at h
                simp only [Option.some.injEq, Prod.mk.injEq] at h
                simp [← h.2.1]
              · cases hc : env.chdir st.cwd (expand_path env.home dir) with
                | ok newCwd =>
                  rw [handle_cd_ok htok hc] at h
                  simp only [Option.some.injEq, Prod.mk.injEq] at h
                  simp [← h.2.1]
                | error msg =>
                  rw [handle_cd_err htok hc] at h
                  simp only [Option.some.injEq, Prod.mk.injEq] at h
                  simp [← h.2.1]
            · by_cases h5 : cmd = "source"
              · subst h5
                rcases rest with - | ⟨file, rest'⟩
                · rw [handle_source_noarg htok] at h
                  simp only [Option.some.injEq, Prod.mk.injEq] at h
                  simp [← h.2.1]
                · cases hr : env.readFile (expand_path env.home file) with
                  | some content =>
                    rw [handle_source_ok htok hr] at h
                    exact runLines_no_save ih (rustLines content) st st' effs h c
                  | none =>
                    rw [handle_source_err htok hr] at h
                    simp only [Option.some.injEq, Prod.mk.injEq] at h
                    simp [← h.2.1]
              · rw [handle_external htok h1 h2 h3 h4 h5] at h
                simp only [Option.some.injEq, Prod.mk.injEq] at h
                rw [← h.2.1]
                exact exec_no_save

lemma run_no_save_of_ne_procExit {env : Env} {fuel : Nat} :
    ∀ reads st st' effs k, run env fuel st reads = some (st', effs, k) →
      k ≠ LoopExit.procExit → ∀ c : Cfg, Eff.saveCfg c ∉ effs := by
  intro reads
  induction reads with
  | nil =>
    intro st st' effs k h hk c
    simp only [run, Option.some.injEq, Prod.mk.injEq] at h
    simp [← h.2.1]
  | cons r rs ih =>
    intro st st' effs k h hk c
    cases r with
    | line l =>
      simp only [run] at h
      split at h
      · exact ih st st' effs k h hk c
      · split at h
        · simp at h
        · rename_i st1 effs1 heq
          simp only [Option.some.injEq, Prod.mk.injEq] at h
          exact absurd h.2.2.symm hk
        · rename_i st1 effs1 heq
          cases hr : run env fuel st1 rs with
          | none => rw [hr] at h; simp at h
          | some t =>
            obtain ⟨st2, effs2, k2⟩ := t
            rw [hr] at h
            simp only [Option.map_some', Option.some.injEq, Prod.mk.injEq] at h
            obtain ⟨-, h2, h3⟩ := h
            rw [← h2]
            intro hm
            rcases List.mem_append.mp hm with hm | hm
            · exact handle_no_save fuel st l st1 effs1 heq c hm
            · exact ih st1 st2 effs2 k2 hr (fun hp => hk (h3.symm.trans hp)) c hm
    | interrupted =>
      simp only [run] at h
      cases hr : run env fuel st rs with
      | none => rw [hr] at h; simp at h
      | some t =>
        obtain ⟨st2, effs2, k2⟩ := t
        rw [hr] at h
        simp only [Option.map_some', Option.some.injEq, Prod.mk.injEq] at h
        obtain ⟨-, h2, h3⟩ := h
        rw [← h2]
        intro hm
        rcases List.mem_cons.mp hm with hm | hm
        · exact Eff.noConfusion hm
        · exact ih st st2 effs2 k2 hr (fun hp => hk (h3.symm.trans hp)) c hm
    | eof =>
      simp only [run, Option.some.injEq, Prod.mk.injEq] at h
      rw [← h.2.1]
      simp
    | err e =>
      simp only [run, Option.some.injEq, Prod.mk.injEq] at h
      rw [← h.2.1]
      simp

lemma splitOnceCharL_not_mem {c : Char} : ∀ {l : List Char}, c ∉ l → splitOnceCharL c l = none := by
  intro l
  induction l with
  | nil => intro _; rfl
  | cons x xs ih =>
    intro h
    have hx : ¬x = c := fun he => h (he ▸ List.mem_cons_self x xs)
    simp only [splitOnceCharL, if_neg hx, ih (fun hm => h (List.mem_cons_of_mem x hm)),
      Option.map_none']

lemma splitOnceCharL_append {c : Char} : ∀ (a b : List Char), c ∉ a →
    splitOnceCharL c (a ++ c :: b) = some (a, b) := by
  intro a
  induction a with
  | nil => intro b _; simp [splitOnceCharL]
  | cons x xs ih =>
    intro b hc
    have hx : ¬x = c := fun he => hc (he ▸ List.mem_cons_self x xs)
    simp only [List.cons_append, splitOnceCharL, if_neg hx, List.append_eq]
    rw [ih b (fun hm => hc (List.mem_cons_of_mem x hm))]
    rfl

lemma splitOnceEq_of_shape {k v : List Char} (s : String)
    (hs : s.data = k ++ '=' :: v) (hk : '=' ∉ k) :
    splitOnceEq s = some (String.mk k, String.mk v) := by
  simp only [splitOnceEq, hs, splitOnceCharL_append k v hk, Option.map_some']

lemma splitOnceEq_of_no_eq (s : String) (h : '=' ∉ s.data) : splitOnceEq s = none := by
  simp only [splitOnceEq, splitOnceCharL_not_mem h, Option.map_none']

lemma foldl_dirs_eq_join (cenv : CompEnv) (pfx : List Nat) : ∀ (dirs : List String)
    (acc : List (String × String)),
    dirs.foldl
      (fun acc dir =>
        match cenv.readDir dir with
        | none => acc
        | some entries =>
          acc ++ (entries.filter (fun n => bytesPrefixOf pfx n)).map fun n => (n, n))
      acc
    = acc ++ (dirs.map fun dir =>
        match cenv.readDir dir with
        | none => []
        | some entries =>
          (entries.filter (fun n => bytesPrefixOf pfx n)).map fun n => (n, n)).flatten := by
  intro dirs
  induction dirs with
  | nil => intro acc; simp
  | cons d ds ih =>
    intro acc
    simp only [List.foldl_cons, List.map_cons, List.flatten]
    cases h : cenv.readDir d with
    | none => rw [ih]; simp [h]
    | some entries => rw [ih]; simp [h, List.append_assoc]

lemma run_eof {env : Env} {fuel : Nat} {st : St} {rs : List ReadRes} :
    run env fuel st (ReadRes.eof :: rs) =
      some (st, [Eff.println "\nSaindo..."], LoopExit.eofExit) := rfl

lemma run_err {env : Env} {fuel : Nat} {st : St} {e : String} {rs : List ReadRes} :
    run env fuel st (ReadRes.err e :: rs) =
      some (st, [Eff.println ("Erro: " ++ e)], LoopExit.errExit) := rfl

lemma run_interrupted {env : Env} {fuel : Nat} {st : St} {rs : List ReadRes} :
    run env fuel st (ReadRes.interrupted :: rs) =
      (run env fuel st rs).map fun t => (t.1, Eff.println "\nInterrompido" :: t.2.1, t.2.2) := rfl

lemma run_line_exit {env : Env} {fuel : Nat} {st st' : St} {l : String} {effs : List Eff}
    {rs : List ReadRes} (hne : ¬trimL l.data = [])
    (hh : handle env fuel st l = some (st', effs, true)) :
    run env fuel st (ReadRes.line l :: rs) = some (st', effs, LoopExit.procExit) := by
  simp only [run, if_neg hne, hh]

lemma run_line_cont {env : Env} {fuel : Nat} {st st' : St} {l : String} {effs : List Eff}
    {rs : List ReadRes} (hne : ¬trimL l.data = [])
    (hh : handle env fuel st l = some (st', effs, false)) :
    run env fuel st (ReadRes.line l :: rs) =
      (run env fuel st' rs).map fun t => (t.1, effs ++ t.2.1, t.2.2) := by
  simp only [run, if_neg hne, hh]

lemma runLines_cons_cont {hnd : St → String → Option (St × List Eff × Bool)}
    {st st' : St} {l : String} {ls : List String} {effs : List Eff}
    (hh : hnd st l = some (st', effs, false)) :
    runLines hnd st (l :: ls) =
      (runLines hnd st' ls).map fun r => (r.1, effs ++ r.2.1, r.2.2) := by
  simp only [runLines, hh]

lemma runLines_cons_exit {hnd : St → String → Option (St × List Eff × Bool)}
    {st st' : St} {l : String} {ls : List String} {effs : List Eff}
    (hh : hnd st l = some (st', effs, true)) :
    runLines hnd st (l :: ls) = some (st', effs, true) := by
  simp only [runLines, hh]

lemma source_loop_diverges : ∀ fuel st, handle envLoop fuel st "source loop" = none := by
  intro fuel
  induction fuel with
  | zero => intro st; rfl
  | succ fuel ih =>
    intro st
    have htok : splitWhitespace (strTrim "source loop") = ["source", "loop"] := by decide
    have hr : envLoop.readFile (expand_path envLoop.home "loop") = some "source loop" := by decide
    rw [handle_source_ok htok hr]
    have hl : rustLines "source loop" = ["source loop"] := by decide
    rw [hl]
    simp [runLines, ih st]

/-! ## Claims -/

/-- Claim C1, counterexample: with the alias table mapping `gs` to
`git status`, entering `gs -v` spawns the single program name `git status`
(the whole value string) with argument list `["-v"]`; the spawn of `git`
with arguments `["status", "-v"]` that the claim asserts does not occur. -/
theorem c1_counterexample :
    handle env0 1 { cfg := { ps := "->", al := [("gs", "git status")] }, cwd := "/" } "gs -v"
      = some ({ cfg := { ps := "->", al := [("gs", "git status")] }, cwd := "/" },
          [Eff.spawn "git status" ["-v"]], false)
    ∧ Eff.spawn "git" ["status", "-v"] ∉ [Eff.spawn "git status" ["-v"]] :=
  ⟨by decide, by decide⟩

/-- Claim C1 (amended): for every valid alias spec `key=value`, after the
alias builtin defines it, entering `key` as the command word spawns the
value's entire command text as the external program name — one single
string, not split into words — with the original typed arguments passed
through unchanged; in particular, after `alias gs=git status`, entering
`gs` spawns the program named `git status` (not `git` with argument
`status`) with any further typed arguments. -/
theorem c1_alias_spawns_whole_value :
    (∀ (env : Env) (fuel : Nat) (st : St) (input k : String) (args : List String) (v : String),
        splitWhitespace (strTrim input) = k :: args →
        k ≠ "exit" → k ≠ "alias" → k ≠ "env" → k ≠ "cd" → k ≠ "source" →
        alGet st.cfg.al k = some v →
        handle env (fuel + 1) st input = some (st, exec env v args, false))
    ∧ handle env0 1 st0 "alias gs=git status"
        = some ({ cfg := { ps := "->", al := [("gs", "git status")] }, cwd := "/" },
            [Eff.println "Alias adicionado: gs -> git status"], false) := by
  constructor
  · intro env fuel st input k args v htok h1 h2 h3 h4 h5 hv
    rw [handle_external htok h1 h2 h3 h4 h5, hv]
    rfl
  · decide

/-- Witness for C1: the amended theorem applied to the alias table
`gs ↦ git status` and the input `gs -v`. -/
theorem c1_witness :
    splitWhitespace (strTrim "gs -v") = ["gs", "-v"]
    ∧ handle env0 1 { cfg := { ps := "->", al := [("gs", "git status")] }, cwd := "/" } "gs -v"
        = some ({ cfg := { ps := "->", al := [("gs", "git status")] }, cwd := "/" },
            exec env0 "git status" ["-v"], false) :=
  ⟨by decide,
    c1_alias_spawns_whole_value.1 env0 0 _ "gs -v" "gs" ["-v"] "git status" (by decide)
      (by decide) (by decide) (by decide) (by decide) (by decide) (by decide)⟩

/-- Claim C2, counterexample: `alias gs = git status` re-joins the tokens
to `gs = git status` and stores key `"gs "` and value `" git status"` with
the surrounding whitespace kept — the claimed trimming does not happen. -/
theorem c2_counterexample :
    handle env0 1 st0 "alias gs = git status"
      = some ({ cfg := { ps := "->", al := [("gs ", " git status")] }, cwd := "/" },
          [Eff.println "Alias adicionado: gs  ->  git status"], false)
    ∧ ("gs", "git status") ∉ [("gs ", " git status")] :=
  ⟨by decide, by decide⟩

/-- Claim C2 (amended): the alias builtin re-joins the remaining tokens
with single spaces and applies define to the joined string: if the spec
contains an `=`, the key is the substring before the first `=` and the
value is everything after, both stored verbatim (no trimming of
surrounding whitespace), and the mapping is stored with a confirmation
printed; if the spec contains no `=`, a one-line usage hint is printed and
the alias table is not mutated. -/
theorem c2_alias_define_verbatim :
    (∀ (env : Env) (fuel : Nat) (st : St) (input : String) (rest : List String)
        (k v : List Char),
        splitWhitespace (strTrim input) = "alias" :: rest →
        (joinSpace rest).data = k ++ '=' :: v → '=' ∉ k →
        handle env (fuel + 1) st input
          = some ({ st with
                cfg := { st.cfg with al := alInsert st.cfg.al (String.mk k) (String.mk v) } },
              [Eff.println ("Alias adicionado: " ++ String.mk k ++ " -> " ++ String.mk v)],
              false))
    ∧ (∀ (env : Env) (fuel : Nat) (st : St) (input : String) (rest : List String),
        splitWhitespace (strTrim input) = "alias" :: rest →
        '=' ∉ (joinSpace rest).data →
        handle env (fuel + 1) st input
          = some (st, [Eff.println "Uso: alias nome=comando"], false)) := by
  constructor
  · intro env fuel st input rest k v htok hs hk
    exact handle_alias_some htok (splitOnceEq_of_shape _ hs hk)
  · intro env fuel st input rest htok hno
    exact handle_alias_none htok (splitOnceEq_of_no_eq _ hno)

/-- Witness for C2: the amended theorem applied to `alias gs = git status`
(stores the untrimmed pair) and to `alias x` (usage hint, no mutation). -/
theorem c2_witness :
    splitWhitespace (strTrim "alias gs = git status") = "alias" :: ["gs", "=", "git", "status"]
    ∧ handle env0 1 st0 "alias gs = git status"
        = some ({ cfg := { ps := "->", al := [("gs ", " git status")] }, cwd := "/" },
            [Eff.println "Alias adicionado: gs  ->  git status"], false)
    ∧ handle env0 1 st0 "alias x" = some (st0, [Eff.println "Uso: alias nome=comando"], false) := by
  refine ⟨by decide, ?_, ?_⟩
  · have h := c2_alias_define_verbatim.1 env0 0 st0 "alias gs = git status"
      ["gs", "=", "git", "status"] "gs ".data " git status".data (by decide) (by decide) (by decide)
    exact h.trans (by decide)
  · exact c2_alias_define_verbatim.2 env0 0 st0 "alias x" ["x"] (by decide) (by decide)

/-- Claim C3, counterexample: when the interactive read returns
end-of-input against the fresh state, the loop prints the notice and
exits, and the complete effect trace contains no configuration save —
the configuration has not been persisted. -/
theorem c3_counterexample :
    run env0 1 st0 [ReadRes.eof] = some (st0, [Eff.println "\nSaindo..."], LoopExit.eofExit)
    ∧ [Eff.println "\nSaindo..."].filter isSave = [] :=
  ⟨rfl, rfl⟩

/-- Claim C3 (amended): when the interactive read reaches end-of-input,
the loop prints a notice and terminates normally WITHOUT persisting the
configuration; the configuration is persisted only at normal exit via the
`exit` builtin. -/
theorem c3_eof_no_persist :
    (∀ (env : Env) (fuel : Nat) (st : St) (rs : List ReadRes),
        run env fuel st (ReadRes.eof :: rs)
          = some (st, [Eff.println "\nSaindo..."], LoopExit.eofExit))
    ∧ (∀ (env : Env) (fuel : Nat) (st : St) (reads : List ReadRes) (st' : St)
        (effs : List Eff) (c : Cfg),
        run env fuel st reads = some (st', effs, LoopExit.eofExit) →
        Eff.saveCfg c ∉ effs) := by
  constructor
  · intro env fuel st rs
    exact run_eof
  · intro env fuel st reads st' effs c h
    exact run_no_save_of_ne_procExit reads st st' effs LoopExit.eofExit h (by decide) c

/-- Witness for C3: the amended theorem applied to the one-element read
stream consisting of end-of-input. -/
theorem c3_witness :
    run env0 1 st0 [ReadRes.eof] = some (st0, [Eff.println "\nSaindo..."], LoopExit.eofExit)
    ∧ Eff.saveCfg Cfg.default ∉ [Eff.println "\nSaindo..."] :=
  ⟨c3_eof_no_persist.1 env0 1 st0 [],
    c3_eof_no_persist.2 env0 1 st0 [ReadRes.eof] st0 [Eff.println "\nSaindo..."] Cfg.default
      (c3_eof_no_persist.1 env0 1 st0 [])⟩

/-- Claim C4: the configuration is written only when the `exit` builtin
runs — which persists, prints the farewell, and terminates with status 0;
end-of-input prints a notice and exits the loop without persisting; any
other fatal read error prints it and exits the loop without persisting;
an interrupt prints a notice and continues the loop without dispatching
or persisting. -/
theorem c4_save_only_on_exit :
    (∀ (env : Env) (fuel : Nat) (st : St) (reads : List ReadRes) (st' : St)
        (effs : List Eff) (k : LoopExit) (c : Cfg),
        run env fuel st reads = some (st', effs, k) → Eff.saveCfg c ∈ effs →
        k = LoopExit.procExit)
    ∧ (∀ (env : Env) (fuel : Nat) (st : St) (input : String) (rest : List String),
        splitWhitespace (strTrim input) = "exit" :: rest →
        handle env (fuel + 1) st input
          = some (st, [Eff.saveCfg st.cfg, Eff.println "Tchau!", Eff.exitProc 0], true))
    ∧ (∀ (env : Env) (fuel : Nat) (st : St) (rs : List ReadRes),
        run env fuel st (ReadRes.eof :: rs)
          = some (st, [Eff.println "\nSaindo..."], LoopExit.eofExit))
    ∧ (∀ (env : Env) (fuel : Nat) (st : St) (e : String) (rs : List ReadRes),
        run env fuel st (ReadRes.err e :: rs)
          = some (st, [Eff.println ("Erro: " ++ e)], LoopExit.errExit))
    ∧ (∀ (env : Env) (fuel : Nat) (st : St) (rs : List ReadRes),
        run env fuel st (ReadRes.interrupted :: rs)
          = (run env fuel st rs).map fun t => (t.1, Eff.println "\nInterrompido" :: t.2.1, t.2.2)) := by
  refine ⟨?_, ?_, ?_, ?_, ?_⟩
  · intro env fuel st reads st' effs k c h hm
    by_contra hk
    exact run_no_save_of_ne_procExit reads st st' effs k h hk c hm
  · intro env fuel st input rest htok
    exact handle_exit htok
  · intro env fuel st rs
    exact run_eof
  · intro env fuel st e rs
    exact run_err
  · intro env fuel st rs
    exact run_interrupted

/-- Witness for C4: the theorem applied to the input `exit` (the builtin's
effect trace) and to a read stream whose only line is `exit`. -/
theorem c4_witness :
    splitWhitespace (strTrim "exit") = ["exit"]
    ∧ handle env0 1 st0 "exit"
        = some (st0, [Eff.saveCfg st0.cfg, Eff.println "Tchau!", Eff.exitProc 0], true)
    ∧ run env0 1 st0 [ReadRes.err "x"]
        = some (st0, [Eff.println ("Erro: " ++ "x")], LoopExit.errExit) :=
  ⟨by decide, c4_save_only_on_exit.2.1 env0 0 st0 "exit" [] (by decide),
    c4_save_only_on_exit.2.2.2.1 env0 1 st0 "x" []⟩

/-- Claim C5: for every line and character-boundary cursor position,
`complete` matches candidate names against the entire line up to the
cursor (as bytes) — not the current word — returning the builtins from
the fixed list `{ls, cd, exit, alias, env, cat, source}` that start with
that prefix, in that order, then every matching entry of each `PATH`
directory in order, then every matching current-directory entry, in
discovery order with no deduplication, with replacement insertion point
always 0; unopenable directories are silently skipped, and an empty
candidate set is a valid, non-error outcome. -/
theorem c5_complete_full_prefix :
    (∀ (cenv : CompEnv) (line : String) (pos : Nat),
        isCharBoundary (strBytes line) pos = true →
        complete cenv line pos = some (0, claimCandidates cenv ((strBytes line).take pos)))
    ∧ complete cenvE "zz" 2 = some (0, []) := by
  constructor
  · intro cenv line pos h
    simp only [complete, h, if_true]
    cases hp : cenv.pathVar with
    | none => simp [claimCandidates, hp]
    | some paths =>
      simp only [claimCandidates, hp]
      rw [foldl_dirs_eq_join]
      simp
  · decide

/-- Witness for C5: the theorem applied to the line `zz` with the cursor
at its end, in the environment with no `PATH` and no openable directory
(also an instance of the empty candidate set being a valid outcome). -/
theorem c5_witness :
    isCharBoundary (strBytes "zz") 2 = true
    ∧ complete cenvE "zz" 2 = some (0, claimCandidates cenvE ((strBytes "zz").take 2)) :=
  ⟨by decide, c5_complete_full_prefix.1 cenvE "zz" 2 (by decide)⟩

/-- Claim C6: `source f` expands `f` via the path resolver and, when the
read succeeds, dispatches each line of the file's content in file order
exactly once through the same recursive line-handling entry point,
sequentially and synchronously — including blank lines and directive
lines — with no cycle detection (a self-sourcing file exhausts every
recursion fuel); when the file cannot be read, an error naming the file
is printed and no line is dispatched. -/
theorem c6_source_lines :
    (∀ (env : Env) (fuel : Nat) (st : St) (input file : String) (rest : List String)
        (content : String),
        splitWhitespace (strTrim input) = "source" :: file :: rest →
        (env.readFile (expand_path env.home file) = some content →
          handle env (fuel + 1) st input = runLines (handle env fuel) st (rustLines content))
        ∧ (env.readFile (expand_path env.home file) = none →
          handle env (fuel + 1) st input
            = some (st, [Eff.println ("Erro ao carregar o arquivo " ++ file)], false)))
    ∧ (∀ (hnd : St → String → Option (St × List Eff × Bool)) (st : St),
        runLines hnd st [] = some (st, [], false))
    ∧ (∀ (hnd : St → String → Option (St × List Eff × Bool)) (st st' : St) (l : String)
        (ls : List String) (effs : List Eff),
        hnd st l = some (st', effs, false) →
        runLines hnd st (l :: ls)
          = (runLines hnd st' ls).map fun r => (r.1, effs ++ r.2.1, r.2.2))
    ∧ (∀ (fuel : Nat) (st : St), handle envLoop fuel st "source loop" = none) := by
  refine ⟨?_, ?_, ?_, source_loop_diverges⟩
  · intro env fuel st input file rest content htok
    exact ⟨fun hr => handle_source_ok htok hr, fun hr => handle_source_err htok hr⟩
  · intro hnd st
    rfl
  · intro hnd st st' l ls effs hh
    exact runLines_cons_cont hh

/-- Witness for C6: the theorem applied to `source f` where the file `f`
holds the single line `alias a=b`, to `source g` where the file is
unreadable, and to the line-sequencing equation at a concrete handler. -/
theorem c6_witness :
    splitWhitespace (strTrim "source f") = ["source", "f"]
    ∧ handle envSrc 2 st0 "source f" = runLines (handle envSrc 1) st0 (rustLines "alias a=b")
    ∧ handle envSrc 1 st0 "source g"
        = some (st0, [Eff.println ("Erro ao carregar o arquivo " ++ "g")], false)
    ∧ handle envLoop 5 st0 "source loop" = none := by
  refine ⟨by decide, ?_, ?_, c6_source_lines.2.2.2 5 st0⟩
  · exact (c6_source_lines.1 envSrc 1 st0 "source f" "f" [] "alias a=b" (by decide)).1 rfl
  · exact (c6_source_lines.1 envSrc 0 st0 "source g" "g" [] "x" (by decide)).2 rfl

/-- Claim C7: `cd` with no argument prints the usage hint and never
changes the working directory (the state is returned unchanged); `cd`
with an argument expands the argument via the path resolver and attempts
the directory change, printing the OS error text and leaving the state
unchanged on failure, and printing nothing on success. -/
theorem c7_cd_behavior :
    (∀ (env : Env) (fuel : Nat) (st : St) (input : String),
        splitWhitespace (strTrim input) = ["cd"] →
        handle env (fuel + 1) st input = some (st, [Eff.println "Uso: cd <diretório>"], false))
    ∧ (∀ (env : Env) (fuel : Nat) (st : St) (input dir : String) (rest : List String)
        (msg : String),
        splitWhitespace (strTrim input) = "cd" :: dir :: rest →
        env.chdir st.cwd (expand_path env.home dir) = Except.error msg →
        handle env (fuel + 1) st input = some (st, [Eff.println ("Erro: " ++ msg)], false))
    ∧ (∀ (env : Env) (fuel : Nat) (st : St) (input dir : String) (rest : List String)
        (newCwd : String),
        splitWhitespace (strTrim input) = "cd" :: dir :: rest →
        env.chdir st.cwd (expand_path env.home dir) = Except.ok newCwd →
        handle env (fuel + 1) st input = some ({ st with cwd := newCwd }, [], false)) := by
  refine ⟨?_, ?_, ?_⟩
  · intro env fuel st input htok
    exact handle_cd_noarg htok
  · intro env fuel st input dir rest msg htok hc
    exact handle_cd_err htok hc
  · intro env fuel st input dir rest newCwd htok hc
    exact handle_cd_ok htok hc

/-- Witness for C7: the theorem applied to `cd` without argument and to
`cd /nonexistent` in the environment whose directory changes all fail. -/
theorem c7_witness :
    splitWhitespace (strTrim "cd") = ["cd"]
    ∧ handle env0 1 st0 "cd" = some (st0, [Eff.println "Uso: cd <diretório>"], false)
    ∧ handle env0 1 st0 "cd /nonexistent"
        = some (st0, [Eff.println ("Erro: " ++ "e")], false) :=
  ⟨by decide, c7_cd_behavior.1 env0 0 st0 "cd" (by decide),
    c7_cd_behavior.2.1 env0 0 st0 "cd /nonexistent" "/nonexistent" [] "e" (by decide) rfl⟩

/-- Claim C8: `expand_path` returns the path with exactly the first
occurrence of `~` (the leading one) replaced by the home variable's value
when the path begins with `~` and the variable is set; if the path does
not begin with `~`, or the variable is unset, the path is returned
unchanged; the function always returns a string (it is total). -/
theorem c8_expand_path_spec :
    (∀ (h : String) (path : String) (rest : List Char),
        path.data = '~' :: rest →
        expand_path (some h) path = String.mk (h.data ++ rest))
    ∧ (∀ (home : Option String) (path : String),
        path.data.head? ≠ some '~' → expand_path home path = path)
    ∧ (∀ path : String, expand_path none path = path) := by
  refine ⟨?_, ?_, ?_⟩
  · intro h path rest hp
    have hs : startsWithChar path '~' = true := by
      simp [startsWithChar, hp]
    have hd : String.data "~" = ['~'] := by decide
    have hpre : (String.data "~").isPrefixOf ('~' :: rest) = true := by
      rw [hd]
      simp [List.isPrefixOf]
    simp only [expand_path, hs, if_true, replacen1, hp, replaceFirstL, hpre]
    rfl
  · intro home path hp
    have hs : startsWithChar path '~' = false := by
      unfold startsWithChar
      cases hd : path.data with
      | nil => rfl
      | cons x xs =>
        have hx : x ≠ '~' := by
          intro he
          apply hp
          rw [hd, he]
          rfl
        simp [hx]
    simp [expand_path, hs]
  · intro path
    unfold expand_path
    split
    · rfl
    · rfl

/-- Witness for C8: the theorem applied to `~/x` with home `/home/u`, to
a path without leading `~`, and to an unset home variable. -/
theorem c8_witness :
    ("~/x" : String).data = '~' :: "/x".data
    ∧ expand_path (some "/home/u") "~/x" = String.mk ("/home/u".data ++ "/x".data)
    ∧ expand_path (some "/home/u") "a~b" = "a~b"
    ∧ expand_path none "~/x" = "~/x" :=
  ⟨by decide, c8_expand_path_spec.1 "/home/u" "~/x" "/x".data (by decide),
    c8_expand_path_spec.2.1 (some "/home/u") "a~b" (by decide),
    c8_expand_path_spec.2.2 "~/x"⟩

lemma handle_builtin_no_spawn {env : Env} {fuel : Nat} {st : St} {input : String}
    {cmd : String} {rest : List String} {st' : St} {effs : List Eff} {ex : Bool}
    (htok : splitWhitespace (strTrim input) = cmd :: rest)
    (hb : cmd = "exit" ∨ cmd = "alias" ∨ cmd = "env" ∨ cmd = "cd")
    (h : handle env fuel st input = some (st', effs, ex)) :
    ∀ (g : String) (gargs : List String), Eff.spawn g gargs ∉ effs := by
  intro g gargs
  cases fuel with
  | zero => simp [handle] at h
  | succ fuel =>
    rcases hb with hb | hb | hb | hb
    · subst hb
      rw [handle_exit htok] at h
      simp only [Option.some.injEq, Prod.mk.injEq] at h
      rw [← h.2.1]
      simp
    · subst hb
      cases hkv : splitOnceEq (joinSpace rest) with
      | some kv =>
        obtain ⟨k, v⟩ := kv
        rw [handle_alias_some htok hkv] at h
        simp only [Option.some.injEq, Prod.mk.injEq] at h
        rw [← h.2.1]
        simp
      | none =>
        rw [handle_alias_none htok hkv] at h
        simp only [Option.some.injEq, Prod.mk.injEq] at h
        rw [← h.2.1]
        simp
    · subst hb
      rw [handle_env_builtin htok] at h
      simp only [Option.some.injEq, Prod.mk.injEq] at h
      rw [← h.2.1]
      simp [List.mem_map]
    · subst hb
      rcases rest with - | ⟨dir, rest'⟩
      · rw [handle_cd_noarg htok] at h
        simp only [Option.some.injEq, Prod.mk.injEq] at h
        rw [← h.2.1]
        simp
      · cases hc : env.chdir st.cwd (expand_path env.home dir) with
        | ok newCwd =>
          rw [handle_cd_ok htok hc] at h
          simp only [Option.some.injEq, Prod.mk.injEq] at h
          rw [← h.2.1]
          simp
        | error msg =>
          rw [handle_cd_err htok hc] at h
          simp only [Option.some.injEq, Prod.mk.injEq] at h
          rw [← h.2.1]
          simp

/-- Claim C9: a line whose first token is one of `exit`, `alias`, `env`,
`cd` or `source` is dispatched as the builtin without consulting the
alias table — for `exit`, `alias`, `env` and `cd` no external program is
ever spawned, whatever the alias table holds; `exit` behaves identically
even when its name is an alias key; a line headed by `source` dispatches
to the source builtin (usage hint, file read, or read error) even when
`source` is an alias key, the alias value never entering the result; for
non-builtin words, alias resolution is applied at most once: the
resolved replacement is spawned as-is and is not looked up again, even
when it is itself an alias key. -/
theorem c9_builtin_priority :
    (∀ (env : Env) (fuel : Nat) (st : St) (input cmd : String) (rest : List String)
        (st' : St) (effs : List Eff) (ex : Bool),
        splitWhitespace (strTrim input) = cmd :: rest →
        (cmd = "exit" ∨ cmd = "alias" ∨ cmd = "env" ∨ cmd = "cd") →
        handle env fuel st input = some (st', effs, ex) →
        ∀ (g : String) (gargs : List String), Eff.spawn g gargs ∉ effs)
    ∧ (∀ (env : Env) (fuel : Nat) (st : St) (input : String) (rest : List String) (v : String),
        splitWhitespace (strTrim input) = "exit" :: rest →
        alGet st.cfg.al "exit" = some v →
        handle env (fuel + 1) st input
          = some (st, [Eff.saveCfg st.cfg, Eff.println "Tchau!", Eff.exitProc 0], true))
    ∧ (∀ (env : Env) (fuel : Nat) (st : St) (input : String) (v : String),
        splitWhitespace (strTrim input) = ["source"] →
        alGet st.cfg.al "source" = some v →
        handle env (fuel + 1) st input
          = some (st, [Eff.println "Uso: source <arquivo>"], false))
    ∧ (∀ (env : Env) (fuel : Nat) (st : St) (input file : String) (rest : List String)
        (v : String),
        splitWhitespace (strTrim input) = "source" :: file :: rest →
        alGet st.cfg.al "source" = some v →
        (∀ content : String, env.readFile (expand_path env.home file) = some content →
          handle env (fuel + 1) st input = runLines (handle env fuel) st (rustLines content))
        ∧ (env.readFile (expand_path env.home file) = none →
          handle env (fuel + 1) st input
            = some (st, [Eff.println ("Erro ao carregar o arquivo " ++ file)], false)))
    ∧ (∀ (env : Env) (fuel : Nat) (st : St) (input c : String) (args : List String)
        (v w : String),
        splitWhitespace (strTrim input) = c :: args →
        c ≠ "exit" → c ≠ "alias" → c ≠ "env" → c ≠ "cd" → c ≠ "source" →
        alGet st.cfg.al c = some v → alGet st.cfg.al v = some w →
        handle env (fuel + 1) st input = some (st, exec env v args, false)) := by
  refine ⟨?_, ?_, ?_, ?_, ?_⟩
  · intro env fuel st input cmd rest st' effs ex htok hb h
    exact handle_builtin_no_spawn htok hb h
  · intro env fuel st input rest v htok hv
    exact handle_exit htok
  · intro env fuel st input v htok hv
    exact handle_source_noarg htok
  · intro env fuel st input file rest v htok hv
    exact ⟨fun content hr => handle_source_ok htok hr, fun hr => handle_source_err htok hr⟩
  · intro env fuel st input c args v w htok h1 h2 h3 h4 h5 hv hw
    rw [handle_external htok h1 h2 h3 h4 h5, hv]
    rfl

/-- Witness for C9: the theorem applied to a state whose alias table maps
`exit` and `source` to `rm` and chains `a ↦ b ↦ c` — `exit` and `source`
still run the builtins (farewell trace; usage hint; read-error print with
no trace of `rm`), and entering `a` spawns `b` (not `c`). -/
theorem c9_witness :
    splitWhitespace (strTrim "exit now") = ["exit", "now"]
    ∧ handle env0 1 { cfg := { ps := "->", al := [("exit", "rm"), ("source", "rm"), ("a", "b"), ("b", "c")] }, cwd := "/" } "exit now"
        = some ({ cfg := { ps := "->", al := [("exit", "rm"), ("source", "rm"), ("a", "b"), ("b", "c")] }, cwd := "/" },
            [Eff.saveCfg { ps := "->", al := [("exit", "rm"), ("source", "rm"), ("a", "b"), ("b", "c")] },
              Eff.println "Tchau!", Eff.exitProc 0], true)
    ∧ handle env0 1 { cfg := { ps := "->", al := [("exit", "rm"), ("source", "rm"), ("a", "b"), ("b", "c")] }, cwd := "/" } "source"
        = some ({ cfg := { ps := "->", al := [("exit", "rm"), ("source", "rm"), ("a", "b"), ("b", "c")] }, cwd := "/" },
            [Eff.println "Uso: source <arquivo>"], false)
    ∧ handle env0 1 { cfg := { ps := "->", al := [("exit", "rm"), ("source", "rm"), ("a", "b"), ("b", "c")] }, cwd := "/" } "source g"
        = some ({ cfg := { ps := "->", al := [("exit", "rm"), ("source", "rm"), ("a", "b"), ("b", "c")] }, cwd := "/" },
            [Eff.println ("Erro ao carregar o arquivo " ++ "g")], false)
    ∧ handle env0 1 { cfg := { ps := "->", al := [("exit", "rm"), ("source", "rm"), ("a", "b"), ("b", "c")] }, cwd := "/" } "a"
        = some ({ cfg := { ps := "->", al := [("exit", "rm"), ("source", "rm"), ("a", "b"), ("b", "c")] }, cwd := "/" },
            exec env0 "b" [], false) := by
  refine ⟨by decide, ?_, ?_, ?_, ?_⟩
  · exact c9_builtin_priority.2.1 env0 0 _ "exit now" ["now"] "rm" (by decide) (by decide)
  · exact c9_builtin_priority.2.2.1 env0 0 _ "source" "rm" (by decide) (by decide)
  · exact (c9_builtin_priority.2.2.2.1 env0 0 _ "source g" "g" [] "rm" (by decide)
      (by decide)).2 rfl
  · exact c9_builtin_priority.2.2.2.2 env0 0 _ "a" "a" [] "b" "c" (by decide) (by decide)
      (by decide) (by decide) (by decide) (by decide) (by decide) (by decide)

/-- Claim C10: `complete` is total exactly under the precondition that the
cursor is a UTF-8 character-boundary byte index no greater than the
line's byte length — the prefix is the byte slice `line[..pos]`, so at a
boundary a candidate set is always produced, while a cursor inside a
multi-byte character (modelled as the `none` result, the Rust byte-slice
panic) produces no candidate set: the two-byte line `é` with cursor 1 is
such an input. -/
theorem c10_cursor_boundary :
    (∀ (cenv : CompEnv) (line : String) (pos : Nat),
        isCharBoundary (strBytes line) pos = true →
        (complete cenv line pos).isSome = true)
    ∧ (∀ (cenv : CompEnv) (line : String) (pos : Nat),
        isCharBoundary (strBytes line) pos = false →
        complete cenv line pos = none)
    ∧ strBytes "é" = [195, 169]
    ∧ isCharBoundary (strBytes "é") 1 = false
    ∧ complete cenvE "é" 1 = none := by
  refine ⟨?_, ?_, by decide, by decide, by decide⟩
  · intro cenv line pos h
    simp [complete, h]
  · intro cenv line pos h
    simp [complete, h]

/-- Witness for C10: the theorem applied to the boundary cursor 2 and the
mid-character cursor 1 of the two-byte line `é`. -/
theorem c10_witness :
    isCharBoundary (strBytes "é") 2 = true
    ∧ (complete cenvE "é" 2).isSome = true
    ∧ complete cenvE "é" 1 = none :=
  ⟨by decide, c10_cursor_boundary.1 cenvE "é" 2 (by decide),
    c10_cursor_boundary.2.1 cenvE "é" 1 (by decide)⟩

end Gankshell
